import Mathlib

/-!
Verification of the ahrefs-mcp-bridge decision logic: the RD-to-recommendation
tier table, the dripfeed rule, the target resolver, the proxy-key guard and the
deep RD-field search, embedded from the JavaScript sources.
-/

/-- A JavaScript number: a finite rational, NaN, or an infinity.  Comparisons
follow IEEE semantics (every comparison with NaN is false). -/
inductive JSNum where
  | num (q : ℚ)
  | nan
  | posInf
  | negInf
deriving DecidableEq, Repr

/-- JS `a <= b` (false whenever either side is NaN). -/
def jsLe : JSNum → JSNum → Bool
  | JSNum.nan, _ => false
  | _, JSNum.nan => false
  | JSNum.num a, JSNum.num b => decide (a ≤ b)
  | JSNum.num _, JSNum.posInf => true
  | JSNum.num _, JSNum.negInf => false
  | JSNum.posInf, JSNum.posInf => true
  | JSNum.posInf, _ => false
  | JSNum.negInf, _ => true

/-- JS `a < b` (false whenever either side is NaN). -/
def jsLt : JSNum → JSNum → Bool
  | JSNum.nan, _ => false
  | _, JSNum.nan => false
  | JSNum.num a, JSNum.num b => decide (a < b)
  | JSNum.num _, JSNum.posInf => true
  | JSNum.num _, JSNum.negInf => false
  | JSNum.posInf, _ => false
  | JSNum.negInf, JSNum.negInf => false
  | JSNum.negInf, _ => true

/-- A recommendation tier `{min, max}`. -/
structure Tier where
  min : ℕ
  max : ℕ
deriving DecidableEq, Repr

/-- Embedded from `packageFromRD` (src/server.js lines 335-343, identical copy at
src/unnamed/part_000 lines 32-40): the RD-to-package lookup chain of `<=` tests. -/
def packageFromRD (rd : JSNum) : Tier :=
  if jsLe rd (JSNum.num 10) then ⟨5, 5⟩
  else if jsLe rd (JSNum.num 20) then ⟨10, 10⟩
  else if jsLe rd (JSNum.num 29) then ⟨10, 10⟩
  else if jsLe rd (JSNum.num 80) then ⟨15, 15⟩
  else if jsLe rd (JSNum.num 120) then ⟨20, 20⟩
  else if jsLe rd (JSNum.num 200) then ⟨25, 25⟩
  else ⟨25, 50⟩

/-- Modelled from the spec: the §4.2 tier table as an ordered row list with
inclusive upper bounds; rows are tried in order and the first match wins,
with `{25, 50}` for everything above 200. -/
def specTierRows : List (ℚ × Tier) :=
  [(10, ⟨5, 5⟩), (20, ⟨10, 10⟩), (29, ⟨10, 10⟩), (80, ⟨15, 15⟩),
   (120, ⟨20, 20⟩), (200, ⟨25, 25⟩)]

/-- Modelled from the spec: first-match-wins lookup in the §4.2 tier table. -/
def specTierLookup (rd : ℚ) : Tier :=
  match specTierRows.find? (fun p => decide (rd ≤ p.1)) with
  | some p => p.2
  | none => ⟨25, 50⟩

/-- A dripfeed decision `{enabled, rate, reason}`. -/
structure Dripfeed where
  enabled : Bool
  rate : Option String
  reason : Option String
deriving DecidableEq, Repr

/-- The inactive dripfeed decision (the `{ enabled: false }` object). -/
def disabledDrip : Dripfeed := ⟨false, none, none⟩

/-- The active dripfeed decision produced by the /recommend-links handler. -/
def enabledDrip : Dripfeed :=
  ⟨true, some "1 link every 2 days",
   some "Low RD footprint but larger order requested; slower velocity reduces risk."⟩

/-- Embedded from the dripfeed block of the /recommend-links handler
(src/server.js lines 537-547, identical copy at src/unnamed/part_000 lines
232-242): dripfeed is enabled when a requested link count is present, is not
NaN, the RD used for the package is `<= 20`, and the request exceeds the
recommended tier's max. -/
def dripfeedDecision (rdForPackage : JSNum) (requestedLinks : Option JSNum) : Dripfeed :=
  match requestedLinks with
  | none => disabledDrip
  | some r =>
    if r ≠ JSNum.nan ∧
        jsLe rdForPackage (JSNum.num 20) = true ∧
        jsLt (JSNum.num ((packageFromRD rdForPackage).max : ℚ)) r = true then
      enabledDrip
    else disabledDrip

/-- Embedded from `requireProxyKey` (src/server.js lines 29-40, the earliest
variant): a missing `PROXY_KEY` env var responds 500, an absent, empty or
mismatched `X-TRANKS-PROXY-KEY` header responds 401; `none` means the request
may proceed.  An absent header is `none`; JS falsiness of the empty string is
modelled by the explicit empty-string test. -/
def requireProxyKeyV1 (proxyKey : String) (provided : Option String) : Option Nat :=
  if proxyKey = "" then some 500
  else
    match provided with
    | none => some 401
    | some p => if p = "" then some 401 else if p = proxyKey then none else some 401

/-- Embedded from `requireProxyKey` (src/server.js lines 317-324 and the copies
in src/unnamed/part_000): the combined check
`!PROXY_KEY || !provided || provided !== PROXY_KEY` responds 401. -/
def requireProxyKeyV2 (proxyKey : String) (provided : Option String) : Option Nat :=
  if proxyKey = "" then some 401
  else
    match provided with
    | none => some 401
    | some p => if p = "" then some 401 else if p = proxyKey then none else some 401

/-- The observable outcome of one protected-route invocation: the HTTP status
and the list of MCP actions (connections / tool calls) performed. -/
structure HandlerTrace where
  status : Nat
  mcpActions : List String
deriving DecidableEq, Repr

/-- Embedded from the protected /recommend-links route scaffold
(src/server.js lines 214-220 and 432-437): the guard runs first and its
failure returns immediately; then the target check; `rest` stands for
whatever the remainder of the handler does (MCP connection, tool calls,
serialization) once both checks pass. -/
def recommendLinksRoute (guard : String → Option String → Option Nat)
    (proxyKey : String) (provided : Option String) (target : Option String)
    (rest : HandlerTrace) : HandlerTrace :=
  match guard proxyKey provided with
  | some s => ⟨s, []⟩
  | none =>
    match target with
    | none => ⟨400, []⟩
    | some t => if t = "" then ⟨400, []⟩ else rest

/-- A JS value for the deep search: a primitive or a reference into an object
heap.  Object identity — what the source's `seen` set tracks — is the heap
index, so cyclic object graphs are heaps whose objects reference each other. -/
inductive JSVal where
  | vnull
  | vundef
  | vnum (x : JSNum)
  | vstr (s : String)
  | vbool (b : Bool)
  | vref (i : Nat)
deriving DecidableEq, Repr

/-- A JS object (or array) on the heap: its `Object.entries` in order. -/
structure JSObj where
  isArray : Bool
  entries : List (String × JSVal)
deriving DecidableEq, Repr

/-- A heap of JS objects; `vref i` denotes the i-th object. -/
structure Heap where
  objs : List JSObj
deriving Repr

/-- JS whitespace for trimming purposes: space, tab, newline, carriage return
(by code point: 32, 9, 10, 13). -/
def isWsChar (c : Char) : Bool :=
  c.toNat = 32 || c.toNat = 9 || c.toNat = 10 || c.toNat = 13

/-- Modelled from JS `String.prototype.trim`: drop whitespace from both ends. -/
def trimL (l : List Char) : List Char :=
  ((l.dropWhile isWsChar).reverse.dropWhile isWsChar).reverse

/-- Digits of a decimal numeral to a natural number. -/
def digitsToNat (l : List Char) : ℕ :=
  l.foldl (fun n c => n * 10 + (c.toNat - 48)) 0

/-- Modelled from JS `Number(string)` as used by deepFindNumber, restricted to
optional-minus decimal integers: empty or whitespace-only is 0, digit strings
parse, everything else is NaN. -/
def strToNumber (s : String) : JSNum :=
  let t := trimL s.data
  if t = [] then JSNum.num 0
  else if t.all Char.isDigit then JSNum.num (digitsToNat t)
  else
    match t with
    | '-' :: rest =>
      if rest ≠ [] ∧ rest.all Char.isDigit then JSNum.num (-(digitsToNat rest : ℚ))
      else JSNum.nan
    | _ => JSNum.nan

/-- Modelled from JS `Number(v)` coercion as used by deepFindNumber: numbers
pass through, null is 0, undefined is NaN, booleans are 0/1, strings parse as
decimal integers, and object references coerce to NaN. -/
def jsToNumber : JSVal → JSNum
  | JSVal.vnull => JSNum.num 0
  | JSVal.vundef => JSNum.nan
  | JSVal.vnum x => x
  | JSVal.vstr s => strToNumber s
  | JSVal.vbool b => JSNum.num (if b then 1 else 0)
  | JSVal.vref _ => JSNum.nan

/-- Embedded from the first loop of `walk` inside deepFindNumber
(src/unnamed/part_000 lines 117-122): the first entry whose key is wanted,
whose value is neither null nor undefined, and whose `Number` conversion is
not NaN, yields that converted number. -/
def findWantedNum (wanted : List String) : List (String × JSVal) → Option JSNum
  | [] => none
  | (k, v) :: rest =>
    if k ∈ wanted ∧ v ≠ JSVal.vnull ∧ v ≠ JSVal.vundef ∧ jsToNumber v ≠ JSNum.nan then
      some (jsToNumber v)
    else findWantedNum wanted rest

/-- Outcome of a walk: a found number, not found (the source's null), or fuel
exhaustion — the marker whose unreachability expresses termination. -/
inductive WalkRes where
  | found (n : JSNum)
  | notFound
  | fuelOut
deriving DecidableEq, Repr

/-- Sequential walk over a list of child values, threading the seen set, as in
the source's `for (const item of x) { const r = walk(item); if (r != null)
return r; }` loops; `wk` walks a single value. -/
def walkList (wk : Finset ℕ → JSVal → WalkRes × Finset ℕ) :
    Finset ℕ → List JSVal → WalkRes × Finset ℕ
  | seen, [] => (WalkRes.notFound, seen)
  | seen, v :: vs =>
    match wk seen v with
    | (WalkRes.found n, s) => (WalkRes.found n, s)
    | (WalkRes.fuelOut, s) => (WalkRes.fuelOut, s)
    | (WalkRes.notFound, s) => walkList wk s vs

/-- Embedded from `walk` inside deepFindNumber (src/unnamed/part_000 lines
99-132): primitives return null, an already-seen object returns null, an
unseen object is inserted into the seen set before anything else, then its
entries are scanned for wanted keys (objects only) and its values are walked
in order.  The extra fuel argument, spent once per object descent, makes the
recursion structural; the termination theorem shows heap-size fuel never runs
out. -/
def walk (h : Heap) (w : List String) : ℕ → Finset ℕ → JSVal → WalkRes × Finset ℕ
  | 0, seen, v =>
    match v with
    | JSVal.vref i =>
      if i ∈ seen then (WalkRes.notFound, seen) else (WalkRes.fuelOut, seen)
    | _ => (WalkRes.notFound, seen)
  | fuel + 1, seen, v =>
    match v with
    | JSVal.vref i =>
      if i ∈ seen then (WalkRes.notFound, seen)
      else
        match h.objs[i]? with
        | none => (WalkRes.notFound, insert i seen)
        | some o =>
          if o.isArray then
            walkList (walk h w fuel) (insert i seen) (o.entries.map Prod.snd)
          else
            match findWantedNum w o.entries with
            | some n => (WalkRes.found n, insert i seen)
            | none => walkList (walk h w fuel) (insert i seen) (o.entries.map Prod.snd)
    | _ => (WalkRes.notFound, seen)

/-- Embedded from `deepFindNumber` (src/unnamed/part_000 lines 99-132): walk
the start value with an empty seen set; heap-size fuel by the termination
theorem below. -/
def deepFindNumber (h : Heap) (wanted : List String) (v : JSVal) : WalkRes :=
  (walk h wanted h.objs.length ∅ v).1

/-- Every reference inside the value points into the heap (heap of size n). -/
def valRefsBound (n : ℕ) : JSVal → Bool
  | JSVal.vref i => decide (i < n)
  | _ => true

/-- Every reference stored anywhere in the heap points into the heap. -/
def heapWF (h : Heap) : Bool :=
  h.objs.all (fun o => o.entries.all (fun kv => valRefsBound h.objs.length kv.2))

/-- The number of heap indices not yet in the seen set. -/
def unseenCount (h : Heap) (seen : Finset ℕ) : ℕ :=
  ((Finset.range h.objs.length).filter (fun i => i ∉ seen)).card

/-- A two-object cyclic heap: object 0 points to object 1 and object 1 points
back to object 0 while also carrying a refdomains entry. -/
def cyclicHeap : Heap :=
  ⟨[⟨false, [("next", JSVal.vref 1)]⟩,
    ⟨false, [("back", JSVal.vref 0), ("refdomains", JSVal.vstr "42")]⟩]⟩

/-- ASCII lowercasing of one character: code points 65-90 shift by 32,
everything else is unchanged. -/
def lowerChar (c : Char) : Char :=
  if h : 65 ≤ c.toNat ∧ c.toNat ≤ 90 then
    ⟨⟨⟨c.toNat + 32, by omega⟩⟩, Or.inl (show c.toNat + 32 < 55296 by omega)⟩
  else c

/-- Host characters accepted by the URL model: ASCII letters, digits, dot and
dash (by code point). -/
def isHostChar (c : Char) : Bool :=
  (65 ≤ c.toNat && c.toNat ≤ 90) || (97 ≤ c.toNat && c.toNat ≤ 122) ||
    (48 ≤ c.toNat && c.toNat ≤ 57) || c.toNat = 46 || c.toNat = 45

/-- Characters ending the authority component: slash, question mark, hash. -/
def isHostEnd (c : Char) : Bool :=
  c.toNat = 47 || c.toNat = 63 || c.toNat = 35

/-- Characters ending the path component: question mark, hash. -/
def isPathEnd (c : Char) : Bool :=
  c.toNat = 63 || c.toNat = 35

/-- The fragment delimiter hash. -/
def isHash (c : Char) : Bool :=
  c.toNat = 35

/-- The characters of the literal prelude https-colon-slash-slash. -/
def httpsMark : List Char := ['h', 't', 't', 'p', 's', ':', '/', '/']

/-- The characters of the literal prelude http-colon-slash-slash. -/
def httpMark : List Char := ['h', 't', 't', 'p', ':', '/', '/']

/-- The characters of the https protocol tag (scheme plus colon). -/
def protoHttps : List Char := ['h', 't', 't', 'p', 's', ':']

/-- The characters of the http protocol tag (scheme plus colon). -/
def protoHttp : List Char := ['h', 't', 't', 'p', ':']

/-- The characters of the leading www-dot marker stripped from hostnames. -/
def wwwMark : List Char := ['w', 'w', 'w', '.']

/-- Whether the second list starts with the first one. -/
def startsWithL : List Char → List Char → Bool
  | [], _ => true
  | _ :: _, [] => false
  | c :: p, d :: l => c = d && startsWithL p l

/-- The parsed components of a URL produced by the model parser. -/
structure URLParts where
  protocol : List Char
  host : List Char
  path : List Char
  search : List Char
deriving DecidableEq, Repr

/-- Split off a leading http or https scheme-plus-slashes, yielding the
protocol tag and the remainder. -/
def splitScheme : List Char → Option (List Char × List Char)
  | 'h' :: 't' :: 't' :: 'p' :: 's' :: ':' :: '/' :: '/' :: rest => some (protoHttps, rest)
  | 'h' :: 't' :: 't' :: 'p' :: ':' :: '/' :: '/' :: rest => some (protoHttp, rest)
  | _ => none

/-- Modelled from the spec: the WHATWG `new URL` primitive used at step 3 of the
resolver algorithm, restricted to scheme://host[/path][?query][#fragment] with
ASCII alphanumeric/dot/dash hosts — no userinfo, port or percent-encoding, and
whitespace anywhere is a parse failure.  The host is lowercased and the
fragment is dropped (the sources never serialize it). -/
def parseURL (s : List Char) : Option URLParts :=
  if s.any isWsChar then none
  else
    match splitScheme s with
    | none => none
    | some (proto, rest) =>
      if rest.takeWhile (fun c => !isHostEnd c) = [] then none
      else if !(rest.takeWhile (fun c => !isHostEnd c)).all isHostChar then none
      else
        some ⟨proto, (rest.takeWhile (fun c => !isHostEnd c)).map lowerChar,
          (rest.dropWhile (fun c => !isHostEnd c)).takeWhile (fun c => !isPathEnd c),
          ((rest.dropWhile (fun c => !isHostEnd c)).dropWhile
            (fun c => !isPathEnd c)).takeWhile (fun c => !isHash c)⟩

/-- Embedded from the regex replace of a leading www-dot
(`hostname.replace(/^www\./, "")` in src/server.js line 354): when the list
starts with the four marker characters they are dropped, once. -/
def stripWww (l : List Char) : List Char :=
  if startsWithL wwwMark l then l.drop 4 else l

/-- Embedded from the scheme-prepending step shared by the resolver variants:
prepend https-colon-slash-slash when the string has no http or https scheme
(src/unnamed/part_000 lines 319-321 and 638). -/
def forUrlOf (raw : List Char) : List Char :=
  if startsWithL httpMark raw || startsWithL httpsMark raw then raw
  else httpsMark ++ raw

/-- Embedded from the guarded scheme-prepending of `normalizeTarget`
(src/server.js line 351): the empty string is left alone. -/
def withScheme (raw : List Char) : List Char :=
  if raw ≠ [] ∧ startsWithL httpMark raw = false ∧ startsWithL httpsMark raw = false then
    httpsMark ++ raw
  else raw

/-- The result record of `normalizeTarget`. -/
structure NormTarget where
  isHomepage : Bool
  hostname : List Char
  fullUrl : List Char
deriving DecidableEq, Repr

/-- Embedded from `normalizeTarget` (src/server.js lines 349-360): trim,
prepend the scheme when missing, parse, strip a leading www-dot from the
lowercased host, default the path to a single slash, and rebuild the full URL
from protocol, hostname, path and search.  `none` models the thrown
TypeError when `new URL` rejects its input. -/
def normalizeTarget (input : List Char) : Option NormTarget :=
  match parseURL (withScheme (trimL input)) with
  | none => none
  | some u =>
    let hostname := stripWww u.host
    let path := if u.path = [] then ['/'] else u.path
    let isHomepage := path = ['/'] || path = []
    let fullUrl := u.protocol ++ ['/', '/'] ++ hostname ++ path ++ u.search
    some ⟨isHomepage, hostname, fullUrl⟩

/-- The metric-lookup scope: whole site or one exact page. -/
inductive ScopeMode where
  | SUBDOMAINS
  | EXACT
deriving DecidableEq, Repr

/-- The resolved target scope of the spec's data model. -/
structure TargetScope where
  hostname : List Char
  isHomepage : Bool
  canonicalTarget : List Char
  scopeMode : ScopeMode
deriving DecidableEq, Repr

/-- Embedded from the scope selection of the /recommend-links route
(src/server.js lines 449-451): homepage queries the bare hostname in
subdomains mode, an inner page queries the full URL exactly. -/
def resolveScope (input : List Char) : Option TargetScope :=
  match normalizeTarget input with
  | none => none
  | some p =>
    if p.isHomepage then some ⟨p.hostname, true, p.hostname, ScopeMode.SUBDOMAINS⟩
    else some ⟨p.hostname, false, p.fullUrl, ScopeMode.EXACT⟩

/-- The two failure modes of `parseTarget`. -/
inductive TargetError where
  | missingTarget
  | invalidTarget
deriving DecidableEq, Repr

instance {ε α : Type} [DecidableEq ε] [DecidableEq α] : DecidableEq (Except ε α) := fun x y =>
  match x, y with
  | Except.error a, Except.error b =>
    if h : a = b then isTrue (congrArg Except.error h)
    else isFalse (fun hc => h (Except.error.inj hc))
  | Except.error _, Except.ok _ => isFalse (fun hc => Except.noConfusion hc)
  | Except.ok _, Except.error _ => isFalse (fun hc => Except.noConfusion hc)
  | Except.ok a, Except.ok b =>
    if h : a = b then isTrue (congrArg Except.ok h)
    else isFalse (fun hc => h (Except.ok.inj hc))

/-- The result record of `parseTarget`. -/
structure ParsedTarget where
  isHomepage : Bool
  hostname : List Char
  fullUrl : List Char
  normalizedInput : List Char
deriving DecidableEq, Repr

/-- Embedded from `parseTarget` (src/unnamed/part_000 lines 309-339): empty
input throws Missing target, an unparseable URL throws Invalid target
URL/domain, otherwise the homepage flag, www-stripped hostname and rebuilt
https full URL are returned. -/
def parseTarget (input : List Char) : Except TargetError ParsedTarget :=
  let normalizedInput := trimL input
  if normalizedInput = [] then Except.error TargetError.missingTarget
  else
    match parseURL (forUrlOf normalizedInput) with
    | none => Except.error TargetError.invalidTarget
    | some u =>
      let hostname := stripWww u.host
      let pathname := if u.path = [] then ['/'] else u.path
      let isHomepage := pathname = ['/'] || pathname = []
      let fullUrl := httpsMark ++ hostname ++ pathname ++ u.search
      Except.ok ⟨isHomepage, hostname, fullUrl, normalizedInput⟩

/-- Remove every trailing slash (`replace(/\/+$/g, "")`). -/
def dropTrailingSlashes (l : List Char) : List Char :=
  (l.reverse.dropWhile (fun c => c.toNat = 47)).reverse

/-- Modelled from the WHATWG URL serializer (`u.toString()`) as invoked by
resolveTargetAndScope after it clears `u.hash`; the model parser already
drops the fragment, so serialization is protocol, slashes, host, path
(defaulted to a slash) and search. -/
def urlToString (u : URLParts) : List Char :=
  u.protocol ++ ['/', '/'] ++ u.host ++ (if u.path = [] then ['/'] else u.path) ++ u.search

/-- The result record of `resolveTargetAndScope`; `ok` is the literal ok field
of the returned object, true in every branch. -/
structure Resolved where
  ok : Bool
  mode : String
  target_used : List Char
  fullUrl : List Char
  hostname : List Char
  isHomepage : Bool
deriving DecidableEq, Repr

/-- Embedded from `resolveTargetAndScope` (src/unnamed/part_000 lines
633-686): on parse failure it silently falls back to a homepage scope over
the raw input with trailing slashes stripped; otherwise the homepage test
also accepts a double-slash path, the host keeps any leading www-dot, and
inner pages use the serialized URL with trailing slashes stripped. -/
def resolveTargetAndScope (input : List Char) : Resolved :=
  match parseURL (forUrlOf (trimL input)) with
  | none =>
    ⟨true, "subdomains", dropTrailingSlashes (trimL input),
      httpsMark ++ dropTrailingSlashes (trimL input) ++ ['/'],
      dropTrailingSlashes (trimL input), true⟩
  | some u =>
    if trimL (if u.path = [] then ['/'] else u.path) = ['/'] ||
        trimL (if u.path = [] then ['/'] else u.path) = [] ||
        trimL (if u.path = [] then ['/'] else u.path) = ['/', '/'] then
      ⟨true, "subdomains", u.host, httpsMark ++ u.host ++ ['/'], u.host, true⟩
    else
      ⟨true, "exact", dropTrailingSlashes (urlToString u),
        dropTrailingSlashes (urlToString u), u.host, false⟩

/-- C1: for every finite non-negative RD value the code's `packageFromRD`
returns exactly the spec's tier-table row (first match wins, inclusive upper
bounds), and the twelve boundary values 10, 11, 20, 21, 29, 30, 80, 81, 120,
121, 200, 201 land in exactly the tiers listed in §8 of the spec. -/
theorem packageFromRD_matches_spec_table :
    (∀ q : ℚ, 0 ≤ q → packageFromRD (JSNum.num q) = specTierLookup q) ∧
    packageFromRD (JSNum.num 10) = ⟨5, 5⟩ ∧
    packageFromRD (JSNum.num 11) = ⟨10, 10⟩ ∧
    packageFromRD (JSNum.num 20) = ⟨10, 10⟩ ∧
    packageFromRD (JSNum.num 21) = ⟨10, 10⟩ ∧
    packageFromRD (JSNum.num 29) = ⟨10, 10⟩ ∧
    packageFromRD (JSNum.num 30) = ⟨15, 15⟩ ∧
    packageFromRD (JSNum.num 80) = ⟨15, 15⟩ ∧
    packageFromRD (JSNum.num 81) = ⟨20, 20⟩ ∧
    packageFromRD (JSNum.num 120) = ⟨20, 20⟩ ∧
    packageFromRD (JSNum.num 121) = ⟨25, 25⟩ ∧
    packageFromRD (JSNum.num 200) = ⟨25, 25⟩ ∧
    packageFromRD (JSNum.num 201) = ⟨25, 50⟩ := by
  refine ⟨?_, by decide, by decide, by decide, by decide, by decide, by decide,
    by decide, by decide, by decide, by decide, by decide, by decide⟩
  intro q _
  rcases le_or_lt q 10 with h10 | h10
  · simp [packageFromRD, specTierLookup, specTierRows, jsLe, decide_eq_true h10]
  rcases le_or_lt q 20 with h20 | h20
  · simp [packageFromRD, specTierLookup, specTierRows, jsLe,
      decide_eq_false (not_le.mpr h10), decide_eq_true h20]
  rcases le_or_lt q 29 with h29 | h29
  · simp [packageFromRD, specTierLookup, specTierRows, jsLe,
      decide_eq_false (not_le.mpr h10), decide_eq_false (not_le.mpr h20),
      decide_eq_true h29]
  rcases le_or_lt q 80 with h80 | h80
  · simp [packageFromRD, specTierLookup, specTierRows, jsLe,
      decide_eq_false (not_le.mpr h10), decide_eq_false (not_le.mpr h20),
      decide_eq_false (not_le.mpr h29), decide_eq_true h80]
  rcases le_or_lt q 120 with h120 | h120
  · simp [packageFromRD, specTierLookup, specTierRows, jsLe,
      decide_eq_false (not_le.mpr h10), decide_eq_false (not_le.mpr h20),
      decide_eq_false (not_le.mpr h29), decide_eq_false (not_le.mpr h80),
      decide_eq_true h120]
  rcases le_or_lt q 200 with h200 | h200
  · simp [packageFromRD, specTierLookup, specTierRows, jsLe,
      decide_eq_false (not_le.mpr h10), decide_eq_false (not_le.mpr h20),
      decide_eq_false (not_le.mpr h29), decide_eq_false (not_le.mpr h80),
      decide_eq_false (not_le.mpr h120), decide_eq_true h200]
  · simp [packageFromRD, specTierLookup, specTierRows, jsLe,
      decide_eq_false (not_le.mpr h10), decide_eq_false (not_le.mpr h20),
      decide_eq_false (not_le.mpr h29), decide_eq_false (not_le.mpr h80),
      decide_eq_false (not_le.mpr h120), decide_eq_false (not_le.mpr h200)]

/-- Witness for C1: the general tier-table statement applied at RD = 42. -/
theorem packageFromRD_matches_spec_table_witness :
    packageFromRD (JSNum.num 42) = specTierLookup 42 :=
  packageFromRD_matches_spec_table.1 42 (by norm_num)

/-- C2: the dripfeed decision is the enabled record exactly when a requested
link count is provided, is numeric (not NaN), exceeds the recommended tier's
max, and the RD is at most 20; in every other case it is the disabled record;
in particular RD = 150 with request 100 does not enable dripfeed. -/
theorem dripfeed_characterization :
    (∀ (rd : JSNum) (req : Option JSNum),
      ((dripfeedDecision rd req = enabledDrip) ↔
        (∃ r, req = some r ∧ r ≠ JSNum.nan ∧
          jsLe rd (JSNum.num 20) = true ∧
          jsLt (JSNum.num ((packageFromRD rd).max : ℚ)) r = true)) ∧
      (dripfeedDecision rd req = enabledDrip ∨ dripfeedDecision rd req = disabledDrip) ∧
      (¬ (∃ r, req = some r ∧ r ≠ JSNum.nan ∧
          jsLe rd (JSNum.num 20) = true ∧
          jsLt (JSNum.num ((packageFromRD rd).max : ℚ)) r = true) →
        dripfeedDecision rd req = disabledDrip)) ∧
    dripfeedDecision (JSNum.num 150) (some (JSNum.num 100)) = disabledDrip := by
  constructor
  · intro rd req
    have hne : enabledDrip ≠ disabledDrip := by decide
    refine ⟨?_, ?_, ?_⟩
    · constructor
      · intro h
        cases req with
        | none => simp [dripfeedDecision] at h; exact absurd h.symm hne
        | some r =>
          refine ⟨r, rfl, ?_⟩
          by_cases hc : r ≠ JSNum.nan ∧
              jsLe rd (JSNum.num 20) = true ∧
              jsLt (JSNum.num ((packageFromRD rd).max : ℚ)) r = true
          · exact hc
          · simp only [dripfeedDecision, if_neg hc] at h
            exact absurd h.symm hne
      · rintro ⟨r, rfl, hc⟩
        simp only [dripfeedDecision, if_pos hc]
    · cases req with
      | none => right; rfl
      | some r =>
        by_cases hc : r ≠ JSNum.nan ∧
            jsLe rd (JSNum.num 20) = true ∧
            jsLt (JSNum.num ((packageFromRD rd).max : ℚ)) r = true
        · left; simp only [dripfeedDecision, if_pos hc]
        · right; simp only [dripfeedDecision, if_neg hc]
    · intro hnot
      cases req with
      | none => rfl
      | some r =>
        have hc : ¬ (r ≠ JSNum.nan ∧
            jsLe rd (JSNum.num 20) = true ∧
            jsLt (JSNum.num ((packageFromRD rd).max : ℚ)) r = true) := by
          intro hc
          exact hnot ⟨r, rfl, hc⟩
        simp only [dripfeedDecision, if_neg hc]
  · decide

/-- Witness for C2: RD = 15 with a request of 20 links enables dripfeed
(15 ≤ 20 and 20 exceeds the tier max 10). -/
theorem dripfeed_characterization_witness :
    dripfeedDecision (JSNum.num 15) (some (JSNum.num 20)) = enabledDrip :=
  ((dripfeed_characterization.1 (JSNum.num 15) (some (JSNum.num 20))).1).mpr
    ⟨JSNum.num 20, rfl, by decide, by decide, by decide⟩

/-- C5 counterexample: `packageFromRD (-1)` does not fail with any error; it
returns the lowest tier `{5, 5}`, so the claimed `InvalidMetricError` on a
negative RD does not exist in the code. -/
theorem packageFromRD_neg_one_returns_tier :
    packageFromRD (JSNum.num (-1)) = ⟨5, 5⟩ := by decide

/-- C5 amended: the code performs no validation of the RD metric: every
negative finite RD silently falls into the first tier `{5, 5}` and no error
is raised (the function is total). -/
theorem packageFromRD_no_validation :
    ∀ q : ℚ, q < 0 → packageFromRD (JSNum.num q) = ⟨5, 5⟩ := by
  intro q hq
  have h10 : jsLe (JSNum.num q) (JSNum.num 10) = true := by
    simp only [jsLe, decide_eq_true_eq]; linarith
  simp [packageFromRD, h10]

/-- Witness for the amended C5: RD = -2 lands in tier `{5, 5}`. -/
theorem packageFromRD_no_validation_witness :
    packageFromRD (JSNum.num (-2)) = ⟨5, 5⟩ :=
  packageFromRD_no_validation (-2) (by norm_num)

/-- C6: the recommended tier max is a monotonic step function of the RD value:
for finite RD values with `0 ≤ q1 < q2` the tier max never decreases. -/
theorem packageFromRD_max_monotone :
    ∀ q1 q2 : ℚ, 0 ≤ q1 → q1 < q2 →
      (packageFromRD (JSNum.num q1)).max ≤ (packageFromRD (JSNum.num q2)).max := by
  intro q1 q2 _ hlt
  simp only [packageFromRD, jsLe, decide_eq_true_eq]
  split_ifs <;> simp_all <;> linarith

/-- Witness for C6: monotonicity applied at RD values 5 and 100. -/
theorem packageFromRD_max_monotone_witness :
    (packageFromRD (JSNum.num 5)).max ≤ (packageFromRD (JSNum.num 100)).max :=
  packageFromRD_max_monotone 5 100 (by norm_num) (by norm_num)

/-- C9: `packageFromRD` is total over all JS numbers and always yields one of
the six tier records; for NaN every `<=` comparison is false, so a
non-numeric RD falls through every branch to the top tier `{25, 50}`. -/
theorem packageFromRD_total_nan_top :
    (∀ rd : JSNum,
      packageFromRD rd = ⟨5, 5⟩ ∨ packageFromRD rd = ⟨10, 10⟩ ∨
      packageFromRD rd = ⟨15, 15⟩ ∨ packageFromRD rd = ⟨20, 20⟩ ∨
      packageFromRD rd = ⟨25, 25⟩ ∨ packageFromRD rd = ⟨25, 50⟩) ∧
    packageFromRD JSNum.nan = ⟨25, 50⟩ := by
  constructor
  · intro rd
    simp only [packageFromRD]
    split_ifs <;> simp
  · decide

theorem route_guard_fail (guard : String → Option String → Option Nat)
    (pk : String) (provided : Option String) (target : Option String)
    (rest : HandlerTrace) (s : Nat) (hg : guard pk provided = some s) :
    recommendLinksRoute guard pk provided target rest = ⟨s, []⟩ := by
  simp [recommendLinksRoute, hg]

/-- C8: whenever PROXY_KEY is empty, or the X-TRANKS-PROXY-KEY header is
absent, empty, or differs from PROXY_KEY, every protected-route variant
responds with an error status (401; 500 in the earliest variant when
PROXY_KEY is unset) and performs no MCP action at all, whatever the rest of
the handler would have done. -/
theorem auth_guard_blocks_mcp :
    ∀ (pk : String) (provided : Option String) (target : Option String)
      (rest : HandlerTrace),
      (pk = "" ∨ provided = none ∨ provided = some "" ∨
        (∀ p, provided = some p → p ≠ pk)) →
      ((recommendLinksRoute requireProxyKeyV1 pk provided target rest).mcpActions = [] ∧
        ((recommendLinksRoute requireProxyKeyV1 pk provided target rest).status = 401 ∨
          (recommendLinksRoute requireProxyKeyV1 pk provided target rest).status = 500) ∧
        (pk = "" →
          (recommendLinksRoute requireProxyKeyV1 pk provided target rest).status = 500)) ∧
      ((recommendLinksRoute requireProxyKeyV2 pk provided target rest).mcpActions = [] ∧
        (recommendLinksRoute requireProxyKeyV2 pk provided target rest).status = 401) := by
  intro pk provided target rest h
  have hv1 : ∃ s, requireProxyKeyV1 pk provided = some s ∧
      (s = 401 ∨ s = 500) ∧ (pk = "" → s = 500) := by
    by_cases hpk : pk = ""
    · exact ⟨500, by simp [requireProxyKeyV1, hpk], Or.inr rfl, fun _ => rfl⟩
    · refine ⟨401, ?_, Or.inl rfl, fun hc => absurd hc hpk⟩
      rcases h with h | h | h | h
      · exact absurd h hpk
      · simp [requireProxyKeyV1, hpk, h]
      · simp [requireProxyKeyV1, hpk, h]
      · cases provided with
        | none => simp [requireProxyKeyV1, hpk]
        | some p =>
          have hp : p ≠ pk := h p rfl
          by_cases hpe : p = ""
          · simp [requireProxyKeyV1, hpk, hpe]
          · simp [requireProxyKeyV1, hpk, hpe, hp]
  have hv2 : requireProxyKeyV2 pk provided = some 401 := by
    by_cases hpk : pk = ""
    · simp [requireProxyKeyV2, hpk]
    · rcases h with h | h | h | h
      · exact absurd h hpk
      · simp [requireProxyKeyV2, hpk, h]
      · simp [requireProxyKeyV2, hpk, h]
      · cases provided with
        | none => simp [requireProxyKeyV2, hpk]
        | some p =>
          have hp : p ≠ pk := h p rfl
          by_cases hpe : p = ""
          · simp [requireProxyKeyV2, hpk, hpe]
          · simp [requireProxyKeyV2, hpk, hpe, hp]
  obtain ⟨s, hs, hmem, h500⟩ := hv1
  refine ⟨?_, ?_⟩
  · rw [route_guard_fail _ _ _ _ _ _ hs]
    exact ⟨rfl, by rcases hmem with h1 | h1 <;> simp [h1],
      fun hpk => by simp [h500 hpk]⟩
  · rw [route_guard_fail _ _ _ _ _ _ hv2]
    exact ⟨rfl, rfl⟩

/-- Witness for C8: with PROXY_KEY set and the header absent, the route
responds 401 and performs no MCP action, even though the rest of the handler
would have connected. -/
theorem auth_guard_blocks_mcp_witness :
    (recommendLinksRoute requireProxyKeyV2 "secret-key" none (some "example.com")
        ⟨200, ["mcp-connect"]⟩).status = 401 ∧
    (recommendLinksRoute requireProxyKeyV2 "secret-key" none (some "example.com")
        ⟨200, ["mcp-connect"]⟩).mcpActions = [] := by
  have h := auth_guard_blocks_mcp "secret-key" none (some "example.com")
    ⟨200, ["mcp-connect"]⟩ (Or.inr (Or.inl rfl))
  exact ⟨h.2.2, h.2.1⟩

theorem walkList_seen_mono (wk : Finset ℕ → JSVal → WalkRes × Finset ℕ)
    (hwk : ∀ s v, s ⊆ (wk s v).2) :
    ∀ (seen : Finset ℕ) (vs : List JSVal), seen ⊆ (walkList wk seen vs).2 := by
  intro seen vs
  induction vs generalizing seen with
  | nil => simp [walkList]
  | cons v vs ih =>
    simp only [walkList]
    rcases hv : wk seen v with ⟨r, s⟩
    have hsub : seen ⊆ s := by have := hwk seen v; rwa [hv] at this
    cases r with
    | found n => exact hsub
    | fuelOut => exact hsub
    | notFound => exact hsub.trans (ih s)

theorem walk_seen_mono (h : Heap) (w : List String) :
    ∀ (fuel : ℕ) (seen : Finset ℕ) (v : JSVal), seen ⊆ (walk h w fuel seen v).2 := by
  intro fuel
  induction fuel with
  | zero =>
    intro seen v
    cases v with
    | vref i => by_cases hi : i ∈ seen <;> simp [walk, hi]
    | vnull => simp [walk]
    | vundef => simp [walk]
    | vnum x => simp [walk]
    | vstr s => simp [walk]
    | vbool b => simp [walk]
  | succ fuel ih =>
    intro seen v
    cases v with
    | vref i =>
      by_cases hi : i ∈ seen
      · simp [walk, hi]
      · simp only [walk, if_neg hi]
        cases hg : h.objs[i]? with
        | none => exact Finset.subset_insert i seen
        | some o =>
          by_cases ha : o.isArray
          · simpa [ha] using
              (Finset.subset_insert i seen).trans (walkList_seen_mono _ ih _ _)
          · simp only [ha, if_neg Bool.false_ne_true]
            cases hf : findWantedNum w o.entries with
            | some n => exact Finset.subset_insert i seen
            | none =>
              simpa using
                (Finset.subset_insert i seen).trans (walkList_seen_mono _ ih _ _)
    | vnull => simp [walk]
    | vundef => simp [walk]
    | vnum x => simp [walk]
    | vstr s => simp [walk]
    | vbool b => simp [walk]

theorem unseenCount_anti (h : Heap) (s t : Finset ℕ) (hst : s ⊆ t) :
    unseenCount h t ≤ unseenCount h s := by
  apply Finset.card_le_card
  intro i hi
  simp only [Finset.mem_filter, Finset.mem_range] at hi ⊢
  exact ⟨hi.1, fun hs => hi.2 (hst hs)⟩

theorem unseenCount_insert_lt (h : Heap) (seen : Finset ℕ) (i : ℕ)
    (hi : i < h.objs.length) (hns : i ∉ seen) :
    unseenCount h (insert i seen) < unseenCount h seen := by
  apply Finset.card_lt_card
  rw [Finset.ssubset_def]
  constructor
  · intro j hj
    simp only [Finset.mem_filter, Finset.mem_range, Finset.mem_insert] at hj ⊢
    exact ⟨hj.1, fun hs => hj.2 (Or.inr hs)⟩
  · intro hsub
    have hin : i ∈ (Finset.range h.objs.length).filter (fun j => j ∉ seen) := by
      simp [Finset.mem_filter, Finset.mem_range, hi, hns]
    have hmem := hsub hin
    simp [Finset.mem_filter] at hmem

theorem walkList_no_fuelOut (h : Heap) (wk : Finset ℕ → JSVal → WalkRes × Finset ℕ)
    (n fuel : ℕ) (hmono : ∀ s v, s ⊆ (wk s v).2)
    (hsub : ∀ s v, valRefsBound n v = true → unseenCount h s ≤ fuel →
      (wk s v).1 ≠ WalkRes.fuelOut) :
    ∀ (seen : Finset ℕ) (vs : List JSVal), vs.all (valRefsBound n) = true →
      unseenCount h seen ≤ fuel → (walkList wk seen vs).1 ≠ WalkRes.fuelOut := by
  intro seen vs
  induction vs generalizing seen with
  | nil => intro _ _; simp [walkList]
  | cons v vs ih =>
    intro hall hcnt
    simp only [List.all_cons, Bool.and_eq_true] at hall
    simp only [walkList]
    rcases hv : wk seen v with ⟨r, s⟩
    cases r with
    | found n2 => simp
    | fuelOut =>
      exfalso
      have hne := hsub seen v hall.1 hcnt
      rw [hv] at hne
      exact hne rfl
    | notFound =>
      have hs : seen ⊆ s := by have := hmono seen v; rwa [hv] at this
      simpa using ih s hall.2 (le_trans (unseenCount_anti h seen s hs) hcnt)

theorem walk_no_fuelOut (h : Heap) (w : List String) (hwf : heapWF h = true) :
    ∀ (fuel : ℕ) (seen : Finset ℕ) (v : JSVal),
      valRefsBound h.objs.length v = true → unseenCount h seen ≤ fuel →
      (walk h w fuel seen v).1 ≠ WalkRes.fuelOut := by
  intro fuel
  induction fuel with
  | zero =>
    intro seen v hb hcnt
    cases v with
    | vref i =>
      have hi : i < h.objs.length := by simpa [valRefsBound] using hb
      have hmem : i ∈ seen := by
        by_contra hns
        have hin : i ∈ (Finset.range h.objs.length).filter (fun j => j ∉ seen) := by
          simp [Finset.mem_filter, Finset.mem_range, hi, hns]
        have hpos : 0 < unseenCount h seen := Finset.card_pos.mpr ⟨i, hin⟩
        omega
      simp [walk, hmem]
    | vnull => simp [walk]
    | vundef => simp [walk]
    | vnum x => simp [walk]
    | vstr s => simp [walk]
    | vbool b => simp [walk]
  | succ fuel ih =>
    intro seen v hb hcnt
    cases v with
    | vref i =>
      have hi : i < h.objs.length := by simpa [valRefsBound] using hb
      by_cases hmem : i ∈ seen
      · simp [walk, hmem]
      · have hcnt2 : unseenCount h (insert i seen) ≤ fuel := by
          have := unseenCount_insert_lt h seen i hi hmem
          omega
        have hget : h.objs[i]? = some h.objs[i] := List.getElem?_eq_getElem hi
        have hall := List.all_eq_true.mp hwf h.objs[i] (List.getElem_mem hi)
        simp only at hall
        have hchild : ((h.objs[i]).entries.map Prod.snd).all
            (valRefsBound h.objs.length) = true := by
          rw [List.all_eq_true]
          intro x hx
          rw [List.mem_map] at hx
          obtain ⟨kv, hkv, rfl⟩ := hx
          exact List.all_eq_true.mp hall kv hkv
        simp only [walk, if_neg hmem]
        rw [hget]
        by_cases ha : (h.objs[i]).isArray
        · simpa [ha] using
            walkList_no_fuelOut h (walk h w fuel) h.objs.length fuel
              (walk_seen_mono h w fuel) ih (insert i seen) _ hchild hcnt2
        · simp only [ha, if_neg Bool.false_ne_true]
          cases hf : findWantedNum w (h.objs[i]).entries with
          | some n => simp
          | none =>
            simpa using
              walkList_no_fuelOut h (walk h w fuel) h.objs.length fuel
                (walk_seen_mono h w fuel) ih (insert i seen) _ hchild hcnt2
    | vnull => simp [walk]
    | vundef => simp [walk]
    | vnum x => simp [walk]
    | vstr s => simp [walk]
    | vbool b => simp [walk]

/-- C10: `deepFindNumber` terminates on every well-formed object graph,
cyclic graphs included, because each visited object is inserted into the seen
set before its children are walked: with fuel equal to the heap size the walk
never exhausts fuel, so it always yields a found number or not-found (the
source's null) and never throws. -/
theorem deepFindNumber_terminates :
    ∀ (h : Heap) (wanted : List String) (v : JSVal),
      heapWF h = true → valRefsBound h.objs.length v = true →
      deepFindNumber h wanted v ≠ WalkRes.fuelOut := by
  intro h wanted v hwf hb
  have hcnt : unseenCount h (∅ : Finset ℕ) ≤ h.objs.length := by
    have he : (Finset.range h.objs.length).filter (fun i => i ∉ (∅ : Finset ℕ)) =
        Finset.range h.objs.length :=
      Finset.filter_true_of_mem (fun i _ => Finset.not_mem_empty i)
    rw [unseenCount, he, Finset.card_range]
  exact walk_no_fuelOut h wanted hwf h.objs.length ∅ v hb hcnt

/-- Witness for C10: on the two-object cyclic heap the search terminates and
finds the refdomains value 42 hidden behind the cycle. -/
theorem deepFindNumber_terminates_witness :
    heapWF cyclicHeap = true ∧
    deepFindNumber cyclicHeap ["refdomains"] (JSVal.vref 0) =
      WalkRes.found (JSNum.num 42) ∧
    deepFindNumber cyclicHeap ["refdomains"] (JSVal.vref 0) ≠ WalkRes.fuelOut :=
  ⟨by decide, by decide,
    deepFindNumber_terminates cyclicHeap ["refdomains"] (JSVal.vref 0)
      (by decide) (by decide)⟩

theorem char_eq_of_toNat_eq {c d : Char} (h : c.toNat = d.toNat) : c = d :=
  Char.ext (UInt32.ext h)

theorem toNat_lowerChar_pos (c : Char) (h : 65 ≤ c.toNat ∧ c.toNat ≤ 90) :
    (lowerChar c).toNat = c.toNat + 32 := by
  unfold lowerChar
  rw [dif_pos h]
  rfl

theorem lowerChar_eq_self (c : Char) (h : ¬(65 ≤ c.toNat ∧ c.toNat ≤ 90)) :
    lowerChar c = c := by
  unfold lowerChar
  rw [dif_neg h]

theorem lowerChar_not_upper (c : Char) :
    ¬(65 ≤ (lowerChar c).toNat ∧ (lowerChar c).toNat ≤ 90) := by
  by_cases h : 65 ≤ c.toNat ∧ c.toNat ≤ 90
  · rw [toNat_lowerChar_pos c h]; omega
  · rw [lowerChar_eq_self c h]; exact h

theorem lowerChar_idem (c : Char) : lowerChar (lowerChar c) = lowerChar c :=
  lowerChar_eq_self _ (lowerChar_not_upper c)

theorem isHostChar_lowerChar (c : Char) (h : isHostChar c = true) :
    isHostChar (lowerChar c) = true := by
  by_cases hc : 65 ≤ c.toNat ∧ c.toNat ≤ 90
  · have ht := toNat_lowerChar_pos c hc
    simp only [isHostChar, Bool.or_eq_true, Bool.and_eq_true, decide_eq_true_eq] at h ⊢
    omega
  · rw [lowerChar_eq_self c hc]; exact h

theorem isHostChar_not_ws (c : Char) (h : isHostChar c = true) : isWsChar c = false := by
  simp only [isHostChar, Bool.or_eq_true, Bool.and_eq_true, decide_eq_true_eq] at h
  simp only [isWsChar, Bool.or_eq_false_iff, decide_eq_false_iff_not]
  omega

theorem isHostChar_not_hostEnd (c : Char) (h : isHostChar c = true) : isHostEnd c = false := by
  simp only [isHostChar, Bool.or_eq_true, Bool.and_eq_true, decide_eq_true_eq] at h
  simp only [isHostEnd, Bool.or_eq_false_iff, decide_eq_false_iff_not]
  omega

theorem takeWhile_append_all {α : Type} (p : α → Bool) (l1 l2 : List α)
    (h : l1.all p = true) : (l1 ++ l2).takeWhile p = l1 ++ l2.takeWhile p := by
  induction l1 with
  | nil => simp
  | cons c l ih =>
    simp only [List.all_cons, Bool.and_eq_true] at h
    simp [List.takeWhile_cons, h.1, ih h.2]

theorem dropWhile_append_all {α : Type} (p : α → Bool) (l1 l2 : List α)
    (h : l1.all p = true) : (l1 ++ l2).dropWhile p = l2.dropWhile p := by
  induction l1 with
  | nil => simp
  | cons c l ih =>
    simp only [List.all_cons, Bool.and_eq_true] at h
    simp [List.dropWhile_cons, h.1, ih h.2]

theorem takeWhile_eq_self_of_all {α : Type} (p : α → Bool) (l : List α)
    (h : l.all p = true) : l.takeWhile p = l := by
  induction l with
  | nil => rfl
  | cons c l ih =>
    simp only [List.all_cons, Bool.and_eq_true] at h
    simp [List.takeWhile_cons, h.1, ih h.2]

theorem takeWhile_cons_of_neg {α : Type} (p : α → Bool) (c : α) (l : List α)
    (h : p c = false) : (c :: l).takeWhile p = [] := by
  simp [List.takeWhile_cons, h]

theorem dropWhile_eq_self_of_all_neg {α : Type} (p : α → Bool) (l : List α)
    (h : ∀ c ∈ l, p c = false) : l.dropWhile p = l := by
  cases l with
  | nil => rfl
  | cons c l => simp [List.dropWhile_cons, h c (by simp)]

theorem dropWhile_head_false {α : Type} (p : α → Bool) (l : List α) (c : α) (rest : List α)
    (h : l.dropWhile p = c :: rest) : p c = false := by
  induction l with
  | nil => simp [List.dropWhile] at h
  | cons d l ih =>
    by_cases hd : p d
    · rw [List.dropWhile_cons, if_pos hd] at h; exact ih h
    · rw [List.dropWhile_cons, if_neg hd] at h
      injection h with h1 h2
      subst h1
      simpa using hd

theorem trimL_eq_self (l : List Char) (h : ∀ c ∈ l, isWsChar c = false) : trimL l = l := by
  unfold trimL
  rw [dropWhile_eq_self_of_all_neg _ l h]
  rw [dropWhile_eq_self_of_all_neg _ l.reverse (fun c hc => h c (List.mem_reverse.mp hc))]
  exact List.reverse_reverse l

theorem startsWithL_iff_append (p l : List Char) :
    startsWithL p l = true ↔ ∃ t, l = p ++ t := by
  induction p generalizing l with
  | nil =>
    simp only [startsWithL, List.nil_append, true_iff]
    exact ⟨l, rfl⟩
  | cons c p ih =>
    cases l with
    | nil =>
      simp only [startsWithL]
      exact iff_of_false (by simp) (by rintro ⟨t, ht⟩; cases ht)
    | cons d l =>
      simp only [startsWithL, Bool.and_eq_true, decide_eq_true_eq, List.cons_append]
      constructor
      · rintro ⟨rfl, hs⟩
        obtain ⟨t, rfl⟩ := (ih l).mp hs
        exact ⟨t, rfl⟩
      · rintro ⟨t, ht⟩
        injection ht with h1 h2
        exact ⟨h1.symm, (ih l).mpr ⟨t, h2⟩⟩

theorem startsWithL_append (p t : List Char) : startsWithL p (p ++ t) = true :=
  (startsWithL_iff_append p (p ++ t)).mpr ⟨t, rfl⟩

theorem startsWith_httpMark_of_hostChars (l : List Char) (hall : l.all isHostChar = true) :
    startsWithL httpMark l = false := by
  rw [Bool.eq_false_iff]
  intro hs
  obtain ⟨t, rfl⟩ := (startsWithL_iff_append _ _).mp hs
  have hc : isHostChar ':' = true :=
    List.all_eq_true.mp hall ':' (List.mem_append_left t (by decide))
  simp [isHostChar] at hc

theorem startsWith_httpsMark_of_hostChars (l : List Char) (hall : l.all isHostChar = true) :
    startsWithL httpsMark l = false := by
  rw [Bool.eq_false_iff]
  intro hs
  obtain ⟨t, rfl⟩ := (startsWithL_iff_append _ _).mp hs
  have hc : isHostChar ':' = true :=
    List.all_eq_true.mp hall ':' (List.mem_append_left t (by decide))
  simp [isHostChar] at hc

theorem stripWww_eq_self (l : List Char) (h : startsWithL wwwMark l = false) :
    stripWww l = l := by
  unfold stripWww
  rw [h]
  simp

theorem stripWww_all (p : Char → Bool) (l : List Char) (h : l.all p = true) :
    (stripWww l).all p = true := by
  unfold stripWww
  split
  · rw [List.all_eq_true] at h ⊢
    exact fun x hx => h x (List.mem_of_mem_drop hx)
  · exact h

theorem splitScheme_https (r : List Char) : splitScheme (httpsMark ++ r) = some (protoHttps, r) := rfl

theorem splitScheme_http (r : List Char) : splitScheme (httpMark ++ r) = some (protoHttp, r) := rfl

theorem splitScheme_eq (s proto rest : List Char) (h : splitScheme s = some (proto, rest)) :
    (proto = protoHttps ∧ s = httpsMark ++ rest) ∨ (proto = protoHttp ∧ s = httpMark ++ rest) := by
  unfold splitScheme at h
  split at h
  · simp only [Option.some.injEq, Prod.mk.injEq] at h
    obtain ⟨h1, h2⟩ := h
    subst h1
    subst h2
    left
    exact ⟨rfl, rfl⟩
  · simp only [Option.some.injEq, Prod.mk.injEq] at h
    obtain ⟨h1, h2⟩ := h
    subst h1
    subst h2
    right
    exact ⟨rfl, rfl⟩
  · cases h

theorem parseURL_eq_some (s : List Char) (u : URLParts) (h : parseURL s = some u) :
    s.any isWsChar = false ∧
    ∃ proto rest,
      splitScheme s = some (proto, rest) ∧
      u.protocol = proto ∧
      rest.takeWhile (fun c => !isHostEnd c) ≠ [] ∧
      (rest.takeWhile (fun c => !isHostEnd c)).all isHostChar = true ∧
      u.host = (rest.takeWhile (fun c => !isHostEnd c)).map lowerChar ∧
      u.path = (rest.dropWhile (fun c => !isHostEnd c)).takeWhile (fun c => !isPathEnd c) ∧
      u.search = ((rest.dropWhile (fun c => !isHostEnd c)).dropWhile
        (fun c => !isPathEnd c)).takeWhile (fun c => !isHash c) := by
  unfold parseURL at h
  by_cases hws : s.any isWsChar = true
  · rw [if_pos hws] at h; cases h
  rw [if_neg hws] at h
  refine ⟨Bool.eq_false_iff.mpr hws, ?_⟩
  split at h
  · cases h
  rename_i proto rest hsp
  by_cases hne : rest.takeWhile (fun c => !isHostEnd c) = []
  · rw [if_pos hne] at h; cases h
  rw [if_neg hne] at h
  by_cases hall : (rest.takeWhile (fun c => !isHostEnd c)).all isHostChar = true
  · rw [if_neg (by rw [hall]; simp)] at h
    injection h with h2
    subst h2
    exact ⟨proto, rest, hsp, rfl, hne, hall, rfl, rfl, rfl⟩
  · have hfalse : (rest.takeWhile (fun c => !isHostEnd c)).all isHostChar = false :=
      Bool.eq_false_iff.mpr hall
    rw [if_pos (by rw [hfalse]; rfl)] at h
    cases h

theorem dropWhile_cons_of_neg {α : Type} (p : α → Bool) (c : α) (l : List α)
    (h : p c = false) : (c :: l).dropWhile p = c :: l := by
  simp [List.dropWhile_cons, h]

theorem parseURL_host_props (s : List Char) (u : URLParts) (h : parseURL s = some u) :
    u.host ≠ [] ∧ u.host.all isHostChar = true ∧ u.host.map lowerChar = u.host := by
  obtain ⟨hws, proto, rest, hsp, hp, hne, hall, hhost, hpath, hsearch⟩ := parseURL_eq_some s u h
  refine ⟨?_, ?_, ?_⟩
  · rw [hhost]
    intro hc
    exact hne (List.map_eq_nil_iff.mp hc)
  · rw [hhost, List.all_eq_true]
    intro x hx
    rw [List.mem_map] at hx
    obtain ⟨c, hc, rfl⟩ := hx
    exact isHostChar_lowerChar c (List.all_eq_true.mp hall c hc)
  · rw [hhost, List.map_map]
    exact List.map_congr_left (fun c _ => lowerChar_idem c)

theorem parseURL_proto_or (s : List Char) (u : URLParts) (h : parseURL s = some u) :
    u.protocol = protoHttps ∨ u.protocol = protoHttp := by
  obtain ⟨_, proto, rest, hsp, hp, _, _, _, _, _⟩ := parseURL_eq_some s u h
  rcases splitScheme_eq s proto rest hsp with ⟨h1, _⟩ | ⟨h1, _⟩
  · left; rw [hp, h1]
  · right; rw [hp, h1]

theorem parseURL_mem_input (s : List Char) (u : URLParts) (h : parseURL s = some u) :
    ∀ x, x ∈ u.path ∨ x ∈ u.search → x ∈ s := by
  obtain ⟨hws, proto, rest, hsp, hp, hne, hall, hhost, hpath, hsearch⟩ := parseURL_eq_some s u h
  intro x hx
  have hrest : x ∈ rest := by
    rcases hx with hx | hx
    · rw [hpath] at hx
      exact List.Sublist.mem (List.Sublist.mem hx (List.takeWhile_sublist _))
        (List.dropWhile_sublist _)
    · rw [hsearch] at hx
      exact List.Sublist.mem (List.Sublist.mem (List.Sublist.mem hx
        (List.takeWhile_sublist _)) (List.dropWhile_sublist _)) (List.dropWhile_sublist _)
  rcases splitScheme_eq s proto rest hsp with ⟨_, h3⟩ | ⟨_, h3⟩ <;> rw [h3] <;>
    exact List.mem_append_right _ hrest

theorem parseURL_ws_free (s : List Char) (u : URLParts) (h : parseURL s = some u) :
    u.path.all (fun c => !isWsChar c) = true ∧ u.search.all (fun c => !isWsChar c) = true := by
  have hws : s.any isWsChar = false := (parseURL_eq_some s u h).1
  constructor <;> rw [List.all_eq_true] <;> intro x hx <;>
    simpa using List.any_eq_false.mp hws x (parseURL_mem_input s u h x (by tauto))

theorem parseURL_path_shape (s : List Char) (u : URLParts) (h : parseURL s = some u) :
    (u.path = [] ∨ ∃ r, u.path = '/' :: r) ∧ u.path.all (fun c => !isPathEnd c) = true := by
  obtain ⟨hws, proto, rest, hsp, hp, hne, hall, hhost, hpath, hsearch⟩ := parseURL_eq_some s u h
  constructor
  · rcases htail : rest.dropWhile (fun c => !isHostEnd c) with _ | ⟨c, r⟩
    · left; rw [hpath, htail]; rfl
    · have hend : (!isHostEnd c) = false := dropWhile_head_false _ rest c r htail
      have hend2 : isHostEnd c = true := by simpa using hend
      by_cases hpe : isPathEnd c = true
      · left
        rw [hpath, htail, takeWhile_cons_of_neg _ c r (by simp [hpe])]
      · right
        have hc : c = '/' := by
          apply char_eq_of_toNat_eq
          have h47 : ('/' : Char).toNat = 47 := rfl
          rw [h47]
          simp only [isHostEnd, Bool.or_eq_true, decide_eq_true_eq] at hend2
          simp only [isPathEnd, Bool.or_eq_true, decide_eq_true_eq] at hpe
          omega
        subst hc
        rw [hpath, htail, List.takeWhile_cons, if_pos (by decide)]
        exact ⟨_, rfl⟩
  · rw [hpath, List.all_eq_true]
    intro x hx
    exact @List.mem_takeWhile_imp Char (fun c => !isPathEnd c) _ x hx

theorem parseURL_search_shape (s : List Char) (u : URLParts) (h : parseURL s = some u) :
    (u.search = [] ∨ ∃ r, u.search = '?' :: r) ∧ u.search.all (fun c => !isHash c) = true := by
  obtain ⟨hws, proto, rest, hsp, hp, hne, hall, hhost, hpath, hsearch⟩ := parseURL_eq_some s u h
  constructor
  · rcases hrest2 : (rest.dropWhile (fun c => !isHostEnd c)).dropWhile (fun c => !isPathEnd c)
      with _ | ⟨c, r⟩
    · left; rw [hsearch, hrest2]; rfl
    · have hend : (!isPathEnd c) = false := dropWhile_head_false _ _ c r hrest2
      have hend2 : isPathEnd c = true := by simpa using hend
      by_cases hh : isHash c = true
      · left
        rw [hsearch, hrest2, takeWhile_cons_of_neg _ c r (by simp [hh])]
      · right
        have hc : c = '?' := by
          apply char_eq_of_toNat_eq
          have h63 : ('?' : Char).toNat = 63 := rfl
          rw [h63]
          simp only [isPathEnd, Bool.or_eq_true, decide_eq_true_eq] at hend2
          simp only [isHash, decide_eq_true_eq] at hh
          omega
        subst hc
        rw [hsearch, hrest2, List.takeWhile_cons, if_pos (by decide)]
        exact ⟨_, rfl⟩
  · rw [hsearch, List.all_eq_true]
    intro x hx
    exact @List.mem_takeWhile_imp Char (fun c => !isHash c) _ x hx

theorem hostSegment_split (host path srch : List Char)
    (hhost : host.all isHostChar = true)
    (hpath : path = [] ∨ ∃ r, path = '/' :: r)
    (hsrch : srch = [] ∨ ∃ r, srch = '?' :: r) :
    (host ++ (path ++ srch)).takeWhile (fun c => !isHostEnd c) = host ∧
    (host ++ (path ++ srch)).dropWhile (fun c => !isHostEnd c) = path ++ srch := by
  have hhost2 : host.all (fun c => !isHostEnd c) = true := by
    rw [List.all_eq_true] at hhost ⊢
    intro x hx
    simpa using isHostChar_not_hostEnd x (hhost x hx)
  have htk : (path ++ srch).takeWhile (fun c => !isHostEnd c) = [] := by
    rcases hpath with rfl | ⟨r, rfl⟩
    · rcases hsrch with rfl | ⟨r2, rfl⟩
      · rfl
      · exact takeWhile_cons_of_neg _ _ _ (by decide)
    · exact takeWhile_cons_of_neg _ _ _ (by decide)
  have hdr : (path ++ srch).dropWhile (fun c => !isHostEnd c) = path ++ srch := by
    rcases hpath with rfl | ⟨r, rfl⟩
    · rcases hsrch with rfl | ⟨r2, rfl⟩
      · rfl
      · exact dropWhile_cons_of_neg _ _ _ (by decide)
    · exact dropWhile_cons_of_neg _ _ _ (by decide)
  constructor
  · rw [takeWhile_append_all _ host _ hhost2, htk, List.append_nil]
  · rw [dropWhile_append_all _ host _ hhost2, hdr]

theorem pathSegment_split (path srch : List Char)
    (hpathend : path.all (fun c => !isPathEnd c) = true)
    (hsrch : srch = [] ∨ ∃ r, srch = '?' :: r) :
    (path ++ srch).takeWhile (fun c => !isPathEnd c) = path ∧
    (path ++ srch).dropWhile (fun c => !isPathEnd c) = srch := by
  have htk : srch.takeWhile (fun c => !isPathEnd c) = [] := by
    rcases hsrch with rfl | ⟨r, rfl⟩
    · rfl
    · exact takeWhile_cons_of_neg _ _ _ (by decide)
  have hdr : srch.dropWhile (fun c => !isPathEnd c) = srch := by
    rcases hsrch with rfl | ⟨r, rfl⟩
    · rfl
    · exact dropWhile_cons_of_neg _ _ _ (by decide)
  constructor
  · rw [takeWhile_append_all _ path _ hpathend, htk, List.append_nil]
  · rw [dropWhile_append_all _ path _ hpathend, hdr]

theorem parseURL_of_parts (proto host path srch : List Char)
    (hproto : proto = protoHttps ∨ proto = protoHttp)
    (hne : host ≠ [])
    (hhost : host.all isHostChar = true)
    (hlow : host.map lowerChar = host)
    (hpath : path = [] ∨ ∃ r, path = '/' :: r)
    (hpathend : path.all (fun c => !isPathEnd c) = true)
    (hpathws : path.all (fun c => !isWsChar c) = true)
    (hsrch : srch = [] ∨ ∃ r, srch = '?' :: r)
    (hsrchhash : srch.all (fun c => !isHash c) = true)
    (hsrchws : srch.all (fun c => !isWsChar c) = true) :
    parseURL (proto ++ ['/', '/'] ++ host ++ path ++ srch) = some ⟨proto, host, path, srch⟩ := by
  have hwsfull : (proto ++ ['/', '/'] ++ host ++ path ++ srch).any isWsChar = false := by
    rw [List.any_eq_false]
    intro x hx
    simp only [List.mem_append] at hx
    rcases hx with ((((hx | hx) | hx) | hx) | hx)
    · rcases hproto with rfl | rfl
      · have hp2 : protoHttps.all (fun c => !isWsChar c) = true := by decide
        simpa using List.all_eq_true.mp hp2 x hx
      · have hp2 : protoHttp.all (fun c => !isWsChar c) = true := by decide
        simpa using List.all_eq_true.mp hp2 x hx
    · simp only [List.mem_cons, List.not_mem_nil, or_false] at hx
      rcases hx with rfl | rfl <;> decide
    · simpa using isHostChar_not_ws x (List.all_eq_true.mp hhost x hx)
    · simpa using List.all_eq_true.mp hpathws x hx
    · simpa using List.all_eq_true.mp hsrchws x hx
  have hsplitfacts := hostSegment_split host path srch hhost hpath hsrch
  have hpathfacts := pathSegment_split path srch hpathend hsrch
  have hsearchtake : srch.takeWhile (fun c => !isHash c) = srch :=
    takeWhile_eq_self_of_all _ srch hsrchhash
  rcases hproto with rfl | rfl
  · have hassoc : protoHttps ++ ['/', '/'] ++ host ++ path ++ srch =
        httpsMark ++ (host ++ (path ++ srch)) := by
      simp [httpsMark, protoHttps, List.append_assoc]
    rw [hassoc]
    unfold parseURL
    rw [if_neg (by rw [← hassoc, hwsfull]; simp)]
    rw [splitScheme_https]
    split
    · rename_i heq
      exact absurd heq (by simp)
    · rename_i proto2 rest2 heq
      simp only [Option.some.injEq, Prod.mk.injEq] at heq
      obtain ⟨h1, h2⟩ := heq
      subst h1
      subst h2
      rw [hsplitfacts.1, hsplitfacts.2, if_neg hne, if_neg (by rw [hhost]; simp),
        hlow, hpathfacts.1, hpathfacts.2, hsearchtake]
  · have hassoc : protoHttp ++ ['/', '/'] ++ host ++ path ++ srch =
        httpMark ++ (host ++ (path ++ srch)) := by
      simp [httpMark, protoHttp, List.append_assoc]
    rw [hassoc]
    unfold parseURL
    rw [if_neg (by rw [← hassoc, hwsfull]; simp)]
    rw [splitScheme_http]
    split
    · rename_i heq
      exact absurd heq (by simp)
    · rename_i proto2 rest2 heq
      simp only [Option.some.injEq, Prod.mk.injEq] at heq
      obtain ⟨h1, h2⟩ := heq
      subst h1
      subst h2
      rw [hsplitfacts.1, hsplitfacts.2, if_neg hne, if_neg (by rw [hhost]; simp),
        hlow, hpathfacts.1, hpathfacts.2, hsearchtake]

theorem stripWww_map_lower (l : List Char) (h : l.map lowerChar = l) :
    (stripWww l).map lowerChar = stripWww l := by
  unfold stripWww
  split
  · rw [List.map_drop, h]
  · exact h

theorem hostChars_not_ws (l : List Char) (h : l.all isHostChar = true) :
    ∀ c ∈ l, isWsChar c = false :=
  fun c hc => isHostChar_not_ws c (List.all_eq_true.mp h c hc)

theorem fullUrl_ws_free (proto host path srch : List Char)
    (hproto : proto = protoHttps ∨ proto = protoHttp)
    (hhost : host.all isHostChar = true)
    (hpathws : path.all (fun c => !isWsChar c) = true)
    (hsrchws : srch.all (fun c => !isWsChar c) = true) :
    ∀ x ∈ proto ++ ['/', '/'] ++ host ++ path ++ srch, isWsChar x = false := by
  intro x hx
  simp only [List.mem_append] at hx
  rcases hx with ((((hx | hx) | hx) | hx) | hx)
  · rcases hproto with rfl | rfl
    · have hp2 : protoHttps.all (fun c => !isWsChar c) = true := by decide
      simpa using List.all_eq_true.mp hp2 x hx
    · have hp2 : protoHttp.all (fun c => !isWsChar c) = true := by decide
      simpa using List.all_eq_true.mp hp2 x hx
  · simp only [List.mem_cons, List.not_mem_nil, or_false] at hx
    rcases hx with rfl | rfl <;> decide
  · exact isHostChar_not_ws x (List.all_eq_true.mp hhost x hx)
  · simpa using List.all_eq_true.mp hpathws x hx
  · simpa using List.all_eq_true.mp hsrchws x hx

theorem normalizeTarget_of_parse (input : List Char) (u : URLParts)
    (h : parseURL (withScheme (trimL input)) = some u) :
    normalizeTarget input = some
      ⟨((if u.path = [] then ['/'] else u.path) = ['/'] ||
          (if u.path = [] then ['/'] else u.path) = []),
        stripWww u.host,
        u.protocol ++ ['/', '/'] ++ stripWww u.host ++
          (if u.path = [] then ['/'] else u.path) ++ u.search⟩ := by
  unfold normalizeTarget
  rw [h]

theorem normalizeTarget_eq_some (input : List Char) (p : NormTarget)
    (h : normalizeTarget input = some p) :
    ∃ u, parseURL (withScheme (trimL input)) = some u ∧
      p.hostname = stripWww u.host ∧
      p.isHomepage = ((if u.path = [] then ['/'] else u.path) = ['/'] ||
        (if u.path = [] then ['/'] else u.path) = []) ∧
      p.fullUrl = u.protocol ++ ['/', '/'] ++ stripWww u.host ++
        (if u.path = [] then ['/'] else u.path) ++ u.search := by
  unfold normalizeTarget at h
  split at h
  · cases h
  · rename_i u heq
    injection h with h2
    subst h2
    exact ⟨u, heq, rfl, rfl, rfl⟩

theorem resolveScope_eq_some (input : List Char) (s : TargetScope)
    (h : resolveScope input = some s) :
    ∃ p, normalizeTarget input = some p ∧
      ((p.isHomepage = true ∧ s = ⟨p.hostname, true, p.hostname, ScopeMode.SUBDOMAINS⟩) ∨
       (p.isHomepage = false ∧ s = ⟨p.hostname, false, p.fullUrl, ScopeMode.EXACT⟩)) := by
  unfold resolveScope at h
  split at h
  · cases h
  · rename_i p heq
    by_cases hp : p.isHomepage = true
    · rw [if_pos hp] at h
      injection h with h2
      exact ⟨p, heq, Or.inl ⟨hp, h2.symm⟩⟩
    · rw [if_neg hp] at h
      injection h with h2
      exact ⟨p, heq, Or.inr ⟨Bool.eq_false_iff.mpr hp, h2.symm⟩⟩

/-- C3: for every accepted input, isHomepage holds exactly when the parsed
URL path is empty or a single slash; a homepage resolves to scope mode
SUBDOMAINS with the bare lowercase www-stripped hostname as canonical
target, an inner page resolves to scope mode EXACT with the full normalized
URL; scope mode is SUBDOMAINS exactly on homepages.  In particular
example.com is a homepage and example.com/pricing is an inner page with
canonical target https-example.com/pricing. -/
theorem resolver_scope_characterization :
    (∀ (input : List Char) (s : TargetScope), resolveScope input = some s →
      ((s.isHomepage = true ↔ ∃ u, parseURL (withScheme (trimL input)) = some u ∧
          (u.path = [] ∨ u.path = ['/'])) ∧
       (s.scopeMode = ScopeMode.SUBDOMAINS ↔ s.isHomepage = true) ∧
       (s.isHomepage = true → s.canonicalTarget = s.hostname) ∧
       (s.isHomepage = false → s.scopeMode = ScopeMode.EXACT ∧
         ∃ u, parseURL (withScheme (trimL input)) = some u ∧
           s.canonicalTarget = u.protocol ++ ['/', '/'] ++ stripWww u.host ++
             (if u.path = [] then ['/'] else u.path) ++ u.search) ∧
       (∃ u, parseURL (withScheme (trimL input)) = some u ∧ s.hostname = stripWww u.host) ∧
       s.hostname.map lowerChar = s.hostname)) ∧
    (resolveScope ("example.com".toList)).map TargetScope.isHomepage = some true ∧
    (resolveScope ("https://www.example.com/".toList)).map TargetScope.isHomepage = some true ∧
    (resolveScope ("example.com/pricing".toList)).map TargetScope.isHomepage = some false ∧
    (resolveScope ("example.com/pricing".toList)).map TargetScope.canonicalTarget =
      some ("https://example.com/pricing".toList) := by
  refine ⟨?_, by decide, by decide, by decide, by decide⟩
  intro input s hres
  obtain ⟨p, hnorm, hcase⟩ := resolveScope_eq_some input s hres
  obtain ⟨u, hu, hhostname, hhome, hfull⟩ := normalizeTarget_eq_some input p hnorm
  have hostprops := parseURL_host_props _ u hu
  have hiff : p.isHomepage = true ↔ (u.path = [] ∨ u.path = ['/']) := by
    rw [hhome]
    by_cases hp0 : u.path = []
    · simp [hp0]
    · simp [hp0]
  have hlowhost : p.hostname.map lowerChar = p.hostname := by
    rw [hhostname]
    exact stripWww_map_lower u.host hostprops.2.2
  rcases hcase with ⟨hneq, rfl⟩ | ⟨hneq, rfl⟩
  · refine ⟨iff_of_true rfl ⟨u, hu, hiff.mp hneq⟩, iff_of_true rfl rfl,
      fun _ => rfl, ?_, ⟨u, hu, hhostname⟩, hlowhost⟩
    intro hc
    cases hc
  · refine ⟨?_, ?_, ?_, ?_, ⟨u, hu, hhostname⟩, hlowhost⟩
    · refine iff_of_false (by simp) ?_
      rintro ⟨u2, hu2, hcond⟩
      rw [hu] at hu2
      injection hu2 with hu3
      subst hu3
      rw [hiff.mpr hcond] at hneq
      cases hneq
    · refine iff_of_false (by simp) (by simp)
    · intro hc
      cases hc
    · intro _
      refine ⟨rfl, u, hu, ?_⟩
      rw [← hfull]

theorem resolved_ite_ok (c : Prop) [Decidable c] (a b : Resolved)
    (ha : a.ok = true) (hb : b.ok = true) : (if c then a else b).ok = true := by
  split <;> assumption

/-- C4 counterexample: the input consisting only of the https scheme is
non-empty after trimming and unparseable, so the claim demands a failure;
`parseTarget` indeed fails, but `resolveTargetAndScope` silently falls back
to a successful homepage scope whose target is the leftover scheme text —
the claimed absence of a silent fallback is false for that resolver. -/
theorem resolveTargetAndScope_silent_fallback :
    trimL ("https://".toList) ≠ [] ∧
    parseURL (forUrlOf (trimL ("https://".toList))) = none ∧
    parseTarget ("https://".toList) = Except.error TargetError.invalidTarget ∧
    (resolveTargetAndScope ("https://".toList)).ok = true ∧
    (resolveTargetAndScope ("https://".toList)).isHomepage = true ∧
    (resolveTargetAndScope ("https://".toList)).target_used = "https:".toList := by
  decide

/-- C4 amended: `parseTarget` fails with Missing target exactly on
empty/whitespace input and with Invalid target exactly when the
scheme-completed trimmed input is unparseable, succeeding on every other
input; `resolveTargetAndScope`, however, never fails: its result is marked
ok in every branch, parse failures included. -/
theorem parseTarget_failure_exact :
    ∀ input : List Char,
      (parseTarget input = Except.error TargetError.missingTarget ↔ trimL input = []) ∧
      (parseTarget input = Except.error TargetError.invalidTarget ↔
        (trimL input ≠ [] ∧ parseURL (forUrlOf (trimL input)) = none)) ∧
      ((∃ t, parseTarget input = Except.ok t) ↔
        (trimL input ≠ [] ∧ (parseURL (forUrlOf (trimL input))).isSome = true)) ∧
      (resolveTargetAndScope input).ok = true := by
  intro input
  have hok : (resolveTargetAndScope input).ok = true := by
    unfold resolveTargetAndScope
    split
    · rfl
    · exact resolved_ite_ok _ _ _ rfl rfl
  by_cases h0 : trimL input = []
  · refine ⟨iff_of_true (by simp [parseTarget, h0]) h0, ?_, ?_, hok⟩
    · refine iff_of_false ?_ (by simp [h0])
      simp [parseTarget, h0]
    · refine iff_of_false ?_ (by simp [h0])
      rintro ⟨t, ht⟩
      simp [parseTarget, h0] at ht
  · rcases hp : parseURL (forUrlOf (trimL input)) with _ | u
    · refine ⟨?_, iff_of_true ?_ ⟨h0, rfl⟩, ?_, hok⟩
      · refine iff_of_false ?_ h0
        unfold parseTarget
        rw [if_neg h0, hp]
        intro hc
        cases hc
      · unfold parseTarget
        rw [if_neg h0, hp]
      · refine iff_of_false ?_ (by simp [hp])
        rintro ⟨t, ht⟩
        unfold parseTarget at ht
        rw [if_neg h0, hp] at ht
        cases ht
    · refine ⟨?_, ?_, iff_of_true ?_ ⟨h0, by simp [hp]⟩, hok⟩
      · refine iff_of_false ?_ h0
        unfold parseTarget
        rw [if_neg h0, hp]
        intro hc
        cases hc
      · refine iff_of_false ?_ (by simp [hp])
        unfold parseTarget
        rw [if_neg h0, hp]
        intro hc
        cases hc
      · refine ⟨⟨((if u.path = [] then ['/'] else u.path) = ['/'] ||
            (if u.path = [] then ['/'] else u.path) = []), stripWww u.host,
            httpsMark ++ stripWww u.host ++ (if u.path = [] then ['/'] else u.path) ++
              u.search, trimL input⟩, ?_⟩
        unfold parseTarget
        rw [if_neg h0, hp]

/-- C7 counterexample: for the full URL with a doubled www marker the
resolver strips one www per pass, so resolving its own canonical output
changes the canonical target again — idempotence fails as claimed. -/
theorem resolveScope_not_idempotent :
    startsWithL httpsMark ("https://www.www.example.com/pricing".toList) = true ∧
    (resolveScope ("https://www.www.example.com/pricing".toList)).map
      TargetScope.canonicalTarget = some ("https://www.example.com/pricing".toList) ∧
    (resolveScope ("https://www.example.com/pricing".toList)).map
      TargetScope.canonicalTarget = some ("https://example.com/pricing".toList) ∧
    ("https://example.com/pricing".toList ≠ "https://www.example.com/pricing".toList) := by
  decide

/-- C7 amended: the resolver is idempotent on its canonical output for every
full URL whose resolved hostname is nonempty and, after the single www strip,
does not itself begin with the www marker: resolving the canonical target
again yields the same canonical target. -/
theorem resolveScope_idempotent_amended :
    ∀ (x : List Char) (s : TargetScope),
      (startsWithL httpMark x = true ∨ startsWithL httpsMark x = true) →
      resolveScope x = some s →
      s.hostname ≠ [] →
      startsWithL wwwMark s.hostname = false →
      ∃ s2, resolveScope s.canonicalTarget = some s2 ∧
        s2.canonicalTarget = s.canonicalTarget := by
  intro x s hfull hres hne hnw
  obtain ⟨p, hnorm, hcase⟩ := resolveScope_eq_some x s hres
  obtain ⟨u, hu, hhostname, hhome, hfullp⟩ := normalizeTarget_eq_some x p hnorm
  have hostprops := parseURL_host_props _ u hu
  rcases hcase with ⟨hneq, rfl⟩ | ⟨hneq, rfl⟩
  · have hne2 : p.hostname ≠ [] := hne
    have hnw2 : startsWithL wwwMark p.hostname = false := hnw
    have hhostchar : p.hostname.all isHostChar = true := by
      rw [hhostname]; exact stripWww_all _ _ hostprops.2.1
    have hlow : p.hostname.map lowerChar = p.hostname := by
      rw [hhostname]; exact stripWww_map_lower _ hostprops.2.2
    have htrim : trimL p.hostname = p.hostname :=
      trimL_eq_self _ (hostChars_not_ws _ hhostchar)
    have hwsch : withScheme p.hostname = httpsMark ++ p.hostname := by
      unfold withScheme
      rw [if_pos ⟨hne2, startsWith_httpMark_of_hostChars _ hhostchar,
        startsWith_httpsMark_of_hostChars _ hhostchar⟩]
    have hof : parseURL (protoHttps ++ ['/', '/'] ++ p.hostname ++ [] ++ []) =
        some ⟨protoHttps, p.hostname, [], []⟩ :=
      parseURL_of_parts protoHttps p.hostname [] [] (Or.inl rfl) hne2 hhostchar hlow
        (Or.inl rfl) rfl rfl (Or.inl rfl) rfl rfl
    have heqlist : protoHttps ++ ['/', '/'] ++ p.hostname ++ ([] : List Char) ++
        ([] : List Char) = httpsMark ++ p.hostname := by
      simp [protoHttps, httpsMark]
    rw [heqlist] at hof
    have hparse2 : parseURL (withScheme (trimL p.hostname)) =
        some ⟨protoHttps, p.hostname, [], []⟩ := by
      rw [htrim, hwsch]; exact hof
    have hnorm2 := normalizeTarget_of_parse p.hostname
      ⟨protoHttps, p.hostname, [], []⟩ hparse2
    have hstrip : stripWww p.hostname = p.hostname := stripWww_eq_self _ hnw2
    refine ⟨⟨stripWww p.hostname, true, stripWww p.hostname, ScopeMode.SUBDOMAINS⟩,
      ?_, hstrip⟩
    show resolveScope p.hostname = _
    unfold resolveScope
    rw [hnorm2]
    rfl
  · have hne2 : p.hostname ≠ [] := hne
    have hnw2 : startsWithL wwwMark p.hostname = false := hnw
    have hhostchar : p.hostname.all isHostChar = true := by
      rw [hhostname]; exact stripWww_all _ _ hostprops.2.1
    have hlow : p.hostname.map lowerChar = p.hostname := by
      rw [hhostname]; exact stripWww_map_lower _ hostprops.2.2
    have hpshape := parseURL_path_shape _ u hu
    have hsshape := parseURL_search_shape _ u hu
    have hwsf := parseURL_ws_free _ u hu
    have hproto := parseURL_proto_or _ u hu
    have hp0 : u.path ≠ [] := by
      intro hc
      rw [hhome, hc] at hneq
      simp at hneq
    have hpd : (if u.path = [] then ['/'] else u.path) = u.path := if_neg hp0
    have hpslash : u.path ≠ ['/'] := by
      intro hc
      rw [hhome, hpd, hc] at hneq
      simp at hneq
    have hpathhead : ∃ r, u.path = '/' :: r := by
      rcases hpshape.1 with hc | h
      · exact absurd hc hp0
      · exact h
    have hfull2 : p.fullUrl = u.protocol ++ ['/', '/'] ++ p.hostname ++ u.path ++ u.search := by
      rw [hfullp, hpd, hhostname]
    have hnows : ∀ c ∈ p.fullUrl, isWsChar c = false := by
      rw [hfull2]
      exact fullUrl_ws_free u.protocol p.hostname u.path u.search hproto hhostchar
        hwsf.1 hwsf.2
    have htrim : trimL p.fullUrl = p.fullUrl := trimL_eq_self _ hnows
    have hstarts : startsWithL httpMark p.fullUrl = true ∨
        startsWithL httpsMark p.fullUrl = true := by
      rcases hproto with hpr | hpr
      · right
        rw [hfull2, hpr]
        have heq2 : protoHttps ++ ['/', '/'] ++ p.hostname ++ u.path ++ u.search =
            httpsMark ++ (p.hostname ++ (u.path ++ u.search)) := by
          simp [protoHttps, httpsMark, List.append_assoc]
        rw [heq2]
        exact startsWithL_append _ _
      · left
        rw [hfull2, hpr]
        have heq2 : protoHttp ++ ['/', '/'] ++ p.hostname ++ u.path ++ u.search =
            httpMark ++ (p.hostname ++ (u.path ++ u.search)) := by
          simp [protoHttp, httpMark, List.append_assoc]
        rw [heq2]
        exact startsWithL_append _ _
    have hwsch : withScheme p.fullUrl = p.fullUrl := by
      unfold withScheme
      rw [if_neg ?_]
      rintro ⟨h1, h2, h3⟩
      rcases hstarts with hc | hc
      · rw [hc] at h2; cases h2
      · rw [hc] at h3; cases h3
    have hof : parseURL (u.protocol ++ ['/', '/'] ++ p.hostname ++ u.path ++ u.search) =
        some ⟨u.protocol, p.hostname, u.path, u.search⟩ :=
      parseURL_of_parts u.protocol p.hostname u.path u.search hproto hne2 hhostchar
        hlow (Or.inr hpathhead) hpshape.2 hwsf.1 hsshape.1 hsshape.2 hwsf.2
    have hparse2 : parseURL (withScheme (trimL p.fullUrl)) =
        some ⟨u.protocol, p.hostname, u.path, u.search⟩ := by
      rw [htrim, hwsch, hfull2]; exact hof
    have hnorm2 := normalizeTarget_of_parse p.fullUrl
      ⟨u.protocol, p.hostname, u.path, u.search⟩ hparse2
    simp only [hpd] at hnorm2
    have hstrip : stripWww p.hostname = p.hostname := stripWww_eq_self _ hnw2
    simp only [hstrip] at hnorm2
    have hcond : (decide (u.path = ['/']) || decide (u.path = [])) = false := by
      simp [hpslash, hp0]
    refine ⟨⟨p.hostname, false,
      u.protocol ++ ['/', '/'] ++ p.hostname ++ u.path ++ u.search, ScopeMode.EXACT⟩,
      ?_, hfull2.symm⟩
    show resolveScope p.fullUrl = _
    unfold resolveScope
    rw [hnorm2]
    simp [hcond]

/-- Witness for the amended C7: the full URL https-example.com/pricing has a
nonempty, www-free hostname and resolving its canonical target reproduces
the same canonical target. -/
theorem resolveScope_idempotent_amended_witness :
    ∃ s2, resolveScope ("https://example.com/pricing".toList) = some s2 ∧
      s2.canonicalTarget = "https://example.com/pricing".toList :=
  resolveScope_idempotent_amended ("https://example.com/pricing".toList)
    ⟨"example.com".toList, false, "https://example.com/pricing".toList, ScopeMode.EXACT⟩
    (Or.inr (by decide)) (by decide) (by decide) (by decide)
